import Mathlib

/-!
Verification of the attention engine and structure module of an AlphaFold3
reimplementation (src/models/components/primitives.py and
src/models/structure_module.py), shallowly embedded over exact rational
arithmetic.  Tensors are total functions from natural-number indices to the
rationals, carrying explicit dimension parameters; leading batch and head
axes of the PyTorch tensors are folded into a single batch index, so the
layout transposes in the source are argument reorderings here.  The
exponential inside softmax is an abstract parameter E, constrained where a
proof needs it by the two facts true of the real exponential: it turns sums
into products, and it is positive.  Gradient flow is embedded with
forward-mode dual numbers.
-/

/-! ## Attention engine: reference, chunked, and low-memory variants -/

/-- Contraction of two rows of width D: the query-key product inside one
attention logit (torch.matmul over the hidden dimension). -/
def dotQ (D : ℕ) (u w : ℕ → ℚ) : ℚ := ∑ j ∈ Finset.range D, u j * w j

/-- Denominator of one softmax row over key length K; the softmax of the
source (F.softmax, with its internal row-max shift) satisfies
softmax(a) j = E (a j) / softmaxDen E K a in exact arithmetic. -/
def softmaxDen (E : ℚ → ℚ) (K : ℕ) (a : ℕ → ℚ) : ℚ := ∑ j ∈ Finset.range K, E (a j)

/-- One batch element of the stock attention of primitives.py:304-321:
logits = q . k + bias, softmax over the key axis, then multiply by value. -/
def attnCore (E : ℚ → ℚ) (K D : ℕ) (q k v b : ℕ → ℕ → ℚ) : ℕ → ℕ → ℚ :=
  fun i d => ∑ j ∈ Finset.range K,
    (E (dotQ D (q i) (k j) + b i j) /
      softmaxDen E K (fun j2 => dotQ D (q i) (k j2) + b i j2)) * v j d

/-- Embedding of _attention (primitives.py:304-321).  The first index of
each tensor is the flattened batch/head axis.  The source asserts that
exactly one bias term is supplied; other lengths raise, modelled as none. -/
def _attention (E : ℚ → ℚ) (K D : ℕ) (q k v : ℕ → ℕ → ℕ → ℚ)
    (biases : List (ℕ → ℕ → ℕ → ℚ)) : Option (ℕ → ℕ → ℕ → ℚ) :=
  match biases with
  | [b] => some (fun n => attnCore E K D (q n) (k n) (v n) (b n))
  | _ => none

/-- Slice of length chunk_size starting at c * t along the leading batch
axis: entry r of the slice is entry c * t + r of the input. -/
def sliceB (c t : ℕ) (x : ℕ → ℕ → ℕ → ℚ) : ℕ → ℕ → ℕ → ℚ := fun r => x (c * t + r)

/-- Embedding of _attention_chunked_trainable (primitives.py:324-378).
The loop slices query, key, value and every bias along chunk_dim — a
leading batch axis, the only position at which the final transpose and
torch.cat along chunk_dim are layout-coherent — runs _attention on each
slice, and concatenates the chunk outputs, so output element n comes from
chunk n / chunk_size at offset n % chunk_size.  With checkpoint=True the
source caps the biases at two and passes the first two (None-padded) to the
checkpointed call; checkpointing recomputes the same values, so it is
value-transparent here.  The inner _attention still asserts exactly one
bias term. -/
def _attention_chunked_trainable (E : ℚ → ℚ) (K D : ℕ) (q k v : ℕ → ℕ → ℕ → ℚ)
    (biases : List (ℕ → ℕ → ℕ → ℚ)) (chunk_size : ℕ) (checkpoint : Bool) :
    Option (ℕ → ℕ → ℕ → ℚ) :=
  if checkpoint = true ∧ 2 < biases.length then none
  else
    match (if checkpoint then biases.take 2 else biases) with
    | [b] => some (fun n =>
        attnCore E K D
          (sliceB chunk_size (n / chunk_size) q (n % chunk_size))
          (sliceB chunk_size (n / chunk_size) k (n % chunk_size))
          (sliceB chunk_size (n / chunk_size) v (n % chunk_size))
          (sliceB chunk_size (n / chunk_size) b (n % chunk_size)))
    | _ => none

/-- Sum of a list of bias tensors at one position (the `a += b` loop of
_lma over its bias chunks). -/
def biasSum (bs : List (ℕ → ℕ → ℚ)) (i j : ℕ) : ℚ := (bs.map (fun b => b i j)).sum

/-- Number of iterations of `range(0, n, c)`: the chunk count ⌈n / c⌉. -/
def numChunks (n c : ℕ) : ℕ := (n + c - 1) / c

/-- Length of chunk t of a length-n axis cut into chunks of size c. -/
def chunkLen (n c t : ℕ) : ℕ := min c (n - c * t)

/-- Maximum of f over indices below len (torch.max along an axis); for the
chunks this is applied to, len is positive. -/
def maxOver (len : ℕ) (f : ℕ → ℚ) : ℚ :=
  (List.range len).foldl (fun m j => max m (f j)) (f 0)

/-- Per-chunk running maximum max_a of _lma, for key/value chunk t. -/
def lmaChunkM (K kc : ℕ) (a : ℕ → ℚ) (t : ℕ) : ℚ :=
  maxOver (chunkLen K kc t) (fun r => a (kc * t + r))

/-- The second-level reduction global_max of _lma across chunk maxima. -/
def lmaGlobalM (K kc : ℕ) (a : ℕ → ℚ) : ℚ :=
  maxOver (numChunks K kc) (lmaChunkM K kc a)

/-- Inner (key/value) loop of _lma for one query row with logits a: per
chunk accumulate exp-weighted values and weights relative to the chunk
maximum, then rescale every chunk by E (chunk max - global max), sum across
chunks, and divide accumulated values by accumulated weights
(primitives.py:791-825). -/
def lmaRow (E : ℚ → ℚ) (K kc : ℕ) (a : ℕ → ℚ) (v : ℕ → ℕ → ℚ) (d : ℕ) : ℚ :=
  (∑ t ∈ Finset.range (numChunks K kc),
      (∑ r ∈ Finset.range (chunkLen K kc t),
          E (a (kc * t + r) - lmaChunkM K kc a t) * v (kc * t + r) d)
        * E (lmaChunkM K kc a t - lmaGlobalM K kc a)) /
  (∑ t ∈ Finset.range (numChunks K kc),
      (∑ r ∈ Finset.range (chunkLen K kc t),
          E (a (kc * t + r) - lmaChunkM K kc a t))
        * E (lmaChunkM K kc a t - lmaGlobalM K kc a))

/-- Embedding of _lma (primitives.py:770-829).  The outer loop cuts the
query axis into chunks of size qc and writes each chunk output back at its
absolute row, so row i is computed by chunk i / qc at offset i % qc — the
index qc * (i / qc) + i % qc below.  Biases arrive pre-expanded to full
query-by-key shape, as in the use_lma branch of Attention.forward. -/
def _lma (E : ℚ → ℚ) (K D qc kc : ℕ) (q k v : ℕ → ℕ → ℕ → ℚ)
    (biases : List (ℕ → ℕ → ℕ → ℚ)) : ℕ → ℕ → ℕ → ℚ :=
  fun n i d =>
    lmaRow E K kc
      (fun j => dotQ D (q n (qc * (i / qc) + i % qc)) (k n j)
        + biasSum (biases.map (fun b => b n)) (qc * (i / qc) + i % qc) j)
      (v n) d

/-! ## Attention.forward dispatch (primitives.py:593-702) -/

/-- The algorithm variant a call to Attention.forward executes. -/
inductive AttnPath
  | memEff
  | dsEvo
  | lma
  | flash
  | stock
deriving DecidableEq

/-- Ambient module-level state probed by the dispatch: the import-time
installation flags and the autocast fp16 predicate is_fp16_enabled(). -/
structure AttnEnv where
  ds4s_is_installed : Bool
  fa_is_installed : Bool
  fp16_enabled : Bool

/-- Number of true flags in a list (sum(attn_options) of the source). -/
def countTrue (l : List Bool) : ℕ := (l.filter (fun b => b)).length

/-- Embedding of the dispatch and error checks of Attention.forward
(primitives.py:640-698), including the guards raised inside the branch
implementations (_attention asserts one bias; the memory-efficient kernel
branch raises NotImplementedError unconditionally; _deepspeed_evo_attn and
_flash_attn raise when their optional dependency is missing).  biases is
the length of the bias list, none when the argument is omitted (the source
replaces None by [] before branching). -/
def Attention.forwardSel (env : AttnEnv)
    (use_memory_efficient_kernel use_deepspeed_evo_attention use_lma use_flash : Bool)
    (biases : Option ℕ) (lma_q_chunk_size lma_kv_chunk_size : Option ℕ) :
    Except String AttnPath :=
  if use_lma = true ∧ (lma_q_chunk_size = none ∨ lma_kv_chunk_size = none) then
    Except.error "If use_lma is specified, lma_q_chunk_size and lma_kv_chunk_size must be provided"
  else if use_flash = true ∧ biases ≠ none then
    Except.error "use_flash is incompatible with the bias option. For masking, use flash_mask instead"
  else if 1 < countTrue [use_memory_efficient_kernel, use_deepspeed_evo_attention,
      use_lma, use_flash] then
    Except.error "Choose at most one alternative attention algorithm"
  else
    let numBiases := biases.getD 0
    let memEffKernel := if env.fp16_enabled then false else use_memory_efficient_kernel
    if memEffKernel = true then
      if 2 < numBiases then
        Except.error "If use_memory_efficient_kernel is True, you may only provide up to two bias terms"
      else
        Except.error "Memory-efficient kernel from OpenFold not implemented."
    else if use_deepspeed_evo_attention = true then
      if 2 < numBiases then
        Except.error "If use_deepspeed_evo_attention is True, you may only provide up to two bias terms"
      else if env.ds4s_is_installed = false then
        Except.error "_deepspeed_evo_attn requires that DeepSpeed be installed and that the deepspeed.ops.deepspeed4science package exists"
      else Except.ok AttnPath.dsEvo
    else if use_lma = true then Except.ok AttnPath.lma
    else if use_flash = true then
      if env.fa_is_installed = false then
        Except.error "_flash_attn requires that FlashAttention be installed"
      else Except.ok AttnPath.flash
    else
      if numBiases = 1 then Except.ok AttnPath.stock
      else Except.error "Only one bias term is supported for stock PyTorch attention"

/-- Whether an Except value is an error. -/
def isErr : Except String AttnPath → Bool
  | Except.error _ => true
  | Except.ok _ => false

/-- The attention dispatch performed by AttentionPairBias.forward
(primitives.py:472-477): use_deepspeed_evo_attention is hard-coded to True,
biases is the two-element list [mask_bias, pair_bias], and the chunk sizes
keep their defaults DEFAULT_LMA_Q_CHUNK_SIZE and DEFAULT_LMA_KV_CHUNK_SIZE. -/
def AttentionPairBias.forwardSel (env : AttnEnv) : Except String AttnPath :=
  Attention.forwardSel env false true false false (some 2) (some 1024) (some 4096)

/-! ## Linear layers, initializers, AdaLN and gating (primitives.py) -/

/-- A linear layer with weights W and bias B over input width Din. -/
def linearF (W : ℕ → ℕ → ℚ) (B : ℕ → ℚ) (Din : ℕ) (x : ℕ → ℚ) : ℕ → ℚ :=
  fun d => (∑ j ∈ Finset.range Din, W d j * x j) + B d

/-- A bias-free linear layer (LinearNoBias) with weights W. -/
def linearNoBiasF (W : ℕ → ℕ → ℚ) (Din : ℕ) (x : ℕ → ℚ) : ℕ → ℚ :=
  fun d => ∑ j ∈ Finset.range Din, W d j * x j

/-- Weight matrix produced by the "gating" initializer: all zeros
(primitives.py:105-107). -/
def gatingInitW : ℕ → ℕ → ℚ := fun _ _ => 0

/-- Bias vector produced by the "gating" initializer: all ones
(primitives.py:177-180). -/
def gatingInitB : ℕ → ℚ := fun _ => 1

/-- Weight matrix produced by the "final" initializer: all zeros
(primitives.py:100-102). -/
def finalInitW : ℕ → ℕ → ℚ := fun _ _ => 0

/-- Embedding of AdaLN.forward (primitives.py:276-280): normalize a,
normalize s, then return to_gamma(s) * a + skip_linear(s), where to_gamma
is a sigmoid of a linear layer and skip_linear is bias-free.  The two layer
norms are abstract parameters lnA and lnS (the claim under test concerns
the gating arithmetic around them), and the sigmoid is the abstract σ. -/
def AdaLN.forwardF (lnA lnS : (ℕ → ℚ) → ℕ → ℚ) (σ : ℚ → ℚ)
    (gW sW : ℕ → ℕ → ℚ) (gB : ℕ → ℚ) (Din : ℕ) (a s : ℕ → ℚ) : ℕ → ℚ :=
  fun d => σ (linearF gW gB Din (lnS s) d) * lnA a d + linearNoBiasF sW Din (lnS s) d

/-- Pre-sigmoid activation of the AdaLN gate to_gamma on the normalized
conditioning signal. -/
def AdaLN.gammaPreact (lnS : (ℕ → ℚ) → ℕ → ℚ) (gW : ℕ → ℕ → ℚ) (gB : ℕ → ℚ)
    (Din : ℕ) (s : ℕ → ℚ) : ℕ → ℚ :=
  linearF gW gB Din (lnS s)

/-- Bias of output_proj_linear in AttentionPairBias after construction: the
layer is built with the "gating" initializer and its bias is then
overwritten with ones * -2.0 (primitives.py:426-427). -/
def AttentionPairBias.outputProjB : ℕ → ℚ := fun _ => -2

/-- The output gate of AttentionPairBias.forward at construction time:
sigmoid of output_proj_linear applied to the attention output x
(primitives.py:482-483), with the freshly initialized parameters. -/
def AttentionPairBias.outputGate (σ : ℚ → ℚ) (Din : ℕ) (x : ℕ → ℚ) : ℕ → ℚ :=
  fun d => σ (linearF gatingInitW AttentionPairBias.outputProjB Din x d)

/-- The per-head gate to_gamma of the plain Attention engine at
construction time: sigmoid of a "gating"-initialized linear layer
(primitives.py:544-550). -/
def Attention.gammaAtInit (σ : ℚ → ℚ) (Din : ℕ) (x : ℕ → ℚ) : ℕ → ℚ :=
  fun d => σ (linearF gatingInitW gatingInitB Din x d)

/-! ## Rigid transforms and the structure module loop (structure_module.py) -/

/-- Modelled from the spec: Rigid3Array of
src/utils/geometry/rigid_matrix_vector.py, which is not under src/ — a
3x3 rotation together with a 3-vector translation, per the data model of
the spec (rotation orthonormal under composition, translation free). -/
structure Rigid3 where
  rot : Fin 3 → Fin 3 → ℚ
  trans : Fin 3 → ℚ

/-- Modelled from the spec: the identity rigid transform
(Rigid3Array.identity). -/
def Rigid3.identity : Rigid3 :=
  ⟨fun i j => if i = j then 1 else 0, fun _ => 0⟩

/-- Modelled from the spec: rigid composition (the @ of Rigid3Array),
(R1, t1) ∘ (R2, t2) = (R1 R2, R1 t2 + t1), with the 3x3 product written
out. -/
def Rigid3.compose (x y : Rigid3) : Rigid3 :=
  ⟨fun i j => x.rot i 0 * y.rot 0 j + x.rot i 1 * y.rot 1 j + x.rot i 2 * y.rot 2 j,
   fun i => x.rot i 0 * y.trans 0 + x.rot i 1 * y.trans 1 + x.rot i 2 * y.trans 2 + x.trans i⟩

/-- Modelled from the spec: applying a rigid transform to a point,
R p + t (Rigid3Array.apply). -/
def Rigid3.apply (x : Rigid3) (p : Fin 3 → ℚ) : Fin 3 → ℚ :=
  fun i => x.rot i 0 * p 0 + x.rot i 1 * p 1 + x.rot i 2 * p 2 + x.trans i

/-- Modelled from the spec: stop_rot_gradient preserves the value of the
transform and only blocks backward flow through the rotation; on values it
is the identity. -/
def Rigid3.stopRotGradient (x : Rigid3) : Rigid3 := ⟨x.rot, x.trans⟩

/-- The learned sub-modules the refinement loop calls, kept abstract: the
per-block feature update s ↦ s + ipa(s, z, rigids, mask) followed by
dropout, layer norm and the transition block (blockS, consuming the current
rigids); the backbone update head bb_update; and, modelled from the spec,
the literature template restype_atom14_rigid_group_positions of
src/common/residue_constants.py (not under src/), indexed by residue-type
order, atom index, and coordinate, together with the canonical order of the
reference residue ALA. -/
structure SMContext (S : Type) where
  blockS : S → (ℕ → ℕ → Rigid3) → S
  bb_update : S → ℕ → ℕ → Rigid3
  lit_positions : ℕ → ℕ → Fin 3 → ℚ
  ala_order : ℕ

/-- One recorded refinement block output: the running frames and the
predicted backbone atom positions (structure_module.py:136-145). -/
structure SMBlockOut where
  frames : ℕ → ℕ → Rigid3
  positions : ℕ → ℕ → Fin 4 → Fin 3 → ℚ

/-- Embedding of StructureModule.frames_to_atom4_pos
(structure_module.py:199-221): take the first four atom offsets of the
template row of the reference residue and apply each token frame to them. -/
def frames_to_atom4_pos {S : Type} (ctx : SMContext S) (frames : ℕ → ℕ → Rigid3) :
    ℕ → ℕ → Fin 4 → Fin 3 → ℚ :=
  fun b t a4 => (frames b t).apply (fun x3 => ctx.lit_positions ctx.ala_order (a4 : ℕ) x3)

/-- One refinement block on the (features, rigids) state: update the
features, then right-compose the predicted incremental transform onto every
token frame (structure_module.py:127-133). -/
def smStep {S : Type} (ctx : SMContext S) (st : S × (ℕ → ℕ → Rigid3)) :
    S × (ℕ → ℕ → Rigid3) :=
  (ctx.blockS st.1 st.2,
   fun b t => (st.2 b t).compose (ctx.bb_update (ctx.blockS st.1 st.2) b t))

/-- Embedding of the refinement loop of StructureModule._forward_multimer
(structure_module.py:124-156) on a start state: with n blocks remaining,
run one block, record the (pre-detach) frames and atom positions, detach
the rotation between iterations — i.e. unless this was the last block —
and recurse; return the recorded outputs in order plus the final feature
state. -/
def smRun {S : Type} (ctx : SMContext S) : ℕ → S → (ℕ → ℕ → Rigid3) → List SMBlockOut × S
  | 0, s, _ => ([], s)
  | n + 1, s, rigids =>
    let s2 := ctx.blockS s rigids
    let rigids2 := fun b t => (rigids b t).compose (ctx.bb_update s2 b t)
    let next := if n = 0 then rigids2 else fun b t => (rigids2 b t).stopRotGradient
    (⟨rigids2, frames_to_atom4_pos ctx rigids2⟩ :: (smRun ctx n s2 next).1,
     (smRun ctx n s2 next).2)

/-- Embedding of StructureModule.forward / _forward_multimer entry
(structure_module.py:99-183): the per-token rigids start as the identity
transform and the loop runs no_blocks blocks; dict_multimap(torch.stack, _)
stacks the per-block records along a leading iteration axis, rendered here
as the output list. -/
def StructureModule.forward {S : Type} (ctx : SMContext S) (no_blocks : ℕ) (s0 : S) :
    List SMBlockOut × S :=
  smRun ctx no_blocks s0 (fun _ _ => Rigid3.identity)

/-- The lazily initialized lit_positions buffer of a StructureModule
instance: absent until the first call, then holding the dtype and device it
was materialized with (_init_residue_constants registers it with the dtype
and device of that call). -/
structure LitCache where
  dtype : ℕ
  device : ℕ
deriving DecidableEq

/-- Embedding of StructureModule._init_residue_constants
(structure_module.py:185-197): if the buffer attribute is absent, register
it with the dtype and device of this call; otherwise the hasattr guard
leaves the existing buffer untouched. -/
def _init_residue_constants (st : Option LitCache) (float_dtype device : ℕ) :
    Option LitCache :=
  match st with
  | none => some ⟨float_dtype, device⟩
  | some c => some c

/-- frames_to_atom4_pos with its buffer state threaded explicitly: the call
first runs _init_residue_constants at the dtype and device of the incoming
frames, then computes positions (structure_module.py:199-221). -/
def frames_to_atom4_posSt {S : Type} (ctx : SMContext S) (st : Option LitCache)
    (float_dtype device : ℕ) (frames : ℕ → ℕ → Rigid3) :
    Option LitCache × (ℕ → ℕ → Fin 4 → Fin 3 → ℚ) :=
  (_init_residue_constants st float_dtype device, frames_to_atom4_pos ctx frames)

/-! ## Forward-mode dual numbers for the rotation-detach claim -/

/-- A scalar carrying its value and its derivative with respect to one
ambient parameter: forward-mode embedding of autograd tracking.  detach
zeroes the derivative and keeps the value. -/
structure Dual where
  val : ℚ
  der : ℚ
deriving DecidableEq

instance : Add Dual := ⟨fun x y => ⟨x.val + y.val, x.der + y.der⟩⟩

instance : Mul Dual := ⟨fun x y => ⟨x.val * y.val, x.val * y.der + x.der * y.val⟩⟩

/-- A rigid transform with dual-number entries. -/
structure RigidD where
  rot : Fin 3 → Fin 3 → Dual
  trans : Fin 3 → Dual

/-- The identity transform with zero derivatives (Rigid3Array.identity is
constant, so it carries no gradient). -/
def RigidD.identity : RigidD :=
  ⟨fun i j => if i = j then ⟨1, 0⟩ else ⟨0, 0⟩, fun _ => ⟨0, 0⟩⟩

/-- Rigid composition on dual entries, the same formula as Rigid3.compose;
products propagate derivatives by the product rule. -/
def RigidD.compose (x y : RigidD) : RigidD :=
  ⟨fun i j => x.rot i 0 * y.rot 0 j + x.rot i 1 * y.rot 1 j + x.rot i 2 * y.rot 2 j,
   fun i => x.rot i 0 * y.trans 0 + x.rot i 1 * y.trans 1 + x.rot i 2 * y.trans 2 + x.trans i⟩

/-- Modelled from the spec: stop_rot_gradient of Rigid3Array — the rotation
keeps its value and loses its derivative, the translation is untouched. -/
def RigidD.stopRotGradient (x : RigidD) : RigidD :=
  ⟨fun i j => ⟨(x.rot i j).val, 0⟩, x.trans⟩

/-- Value part of a dual rigid transform. -/
def RigidD.value (x : RigidD) : Rigid3 :=
  ⟨fun i j => (x.rot i j).val, fun i => (x.trans i).val⟩

/-- The running rigid transform at the start of block i of the refinement
loop, with the incremental transforms of the blocks given as the sequence
inc: the state starts at the identity, each block right-composes its
increment, and the rotation is detached between iterations — after every
block whose successor exists, i.e. while i + 1 < no_blocks
(structure_module.py:120-149). -/
def smRigidSeq (inc : ℕ → RigidD) (no_blocks : ℕ) : ℕ → RigidD
  | 0 => RigidD.identity
  | i + 1 =>
    if i + 1 < no_blocks then ((smRigidSeq inc no_blocks i).compose (inc i)).stopRotGradient
    else (smRigidSeq inc no_blocks i).compose (inc i)

/-- A trivial structure-module context on unit features, used to
instantiate closed statements. -/
def smCtxU : SMContext Unit :=
  ⟨fun s _ => s, fun _ _ _ => Rigid3.identity, fun _ _ _ => 0, 0⟩

/-! ## Lemmas: chunk partitioning and the softmax rescaling identity -/

/-- Cutting a range-K sum into the chunks visited by `range(0, K, c)`:
chunk t covers offsets below chunkLen K c t starting at c * t. -/
theorem sum_chunked (c : ℕ) (hc : 0 < c) (K : ℕ) (f : ℕ → ℚ) :
    ∑ j ∈ Finset.range K, f j
      = ∑ t ∈ Finset.range (numChunks K c),
          ∑ r ∈ Finset.range (chunkLen K c t), f (c * t + r) := by
  induction K using Nat.strong_induction_on generalizing f with
  | _ K ih =>
    rcases Nat.eq_zero_or_pos K with hK0 | hKpos
    · subst hK0
      have h1 : numChunks 0 c = 0 := by
        unfold numChunks
        exact Nat.div_eq_of_lt (by omega)
      simp [h1]
    rcases le_or_lt K c with hKc | hcK
    · have h1 : numChunks K c = 1 := by
        unfold numChunks
        have h2 : K + c - 1 = (K - 1) + 1 * c := by omega
        rw [h2, Nat.add_mul_div_right _ _ hc, Nat.div_eq_of_lt (by omega)]
      have h3 : chunkLen K c 0 = K := by
        unfold chunkLen
        omega
      rw [h1, Finset.sum_range_one, h3]
      exact Finset.sum_congr rfl (fun r _ => by norm_num)
    · have hsub : K - c < K := by omega
      have hsplit : K = c + (K - c) := by omega
      have h1 : numChunks K c = numChunks (K - c) c + 1 := by
        unfold numChunks
        have h2 : K + c - 1 = (K - c + c - 1) + c := by omega
        rw [h2, Nat.add_div_right _ hc]
      calc ∑ j ∈ Finset.range K, f j
          = ∑ j ∈ Finset.range (c + (K - c)), f j := by rw [← hsplit]
        _ = (∑ j ∈ Finset.range c, f j) + ∑ j ∈ Finset.range (K - c), f (c + j) :=
            Finset.sum_range_add f c (K - c)
        _ = (∑ j ∈ Finset.range c, f j)
              + ∑ t ∈ Finset.range (numChunks (K - c) c),
                  ∑ r ∈ Finset.range (chunkLen (K - c) c t), f (c + (c * t + r)) := by
            rw [ih (K - c) hsub (fun j => f (c + j))]
        _ = ∑ t ∈ Finset.range (numChunks K c),
              ∑ r ∈ Finset.range (chunkLen K c t), f (c * t + r) := by
            rw [h1, Finset.sum_range_succ']
            have hlen0 : chunkLen K c 0 = c := by unfold chunkLen; omega
            have hlen : ∀ t, chunkLen K c (t + 1) = chunkLen (K - c) c t := by
              intro t
              unfold chunkLen
              rw [Nat.mul_succ, Nat.add_comm (c * t) c, ← Nat.sub_sub]
            rw [hlen0]
            simp only [Nat.mul_zero, Nat.zero_add]
            rw [add_comm]
            congr 1
            refine Finset.sum_congr rfl (fun t _ => ?_)
            rw [hlen t]
            refine Finset.sum_congr rfl (fun r _ => ?_)
            congr 1
            ring

/-- The two-level rescaling of _lma collapses: summing chunk-local
exponential weights rescaled by E (chunk max - M) over all chunks equals
the plain exponential-weighted sum times E (-M), for any reference points
m and M, as soon as E turns sums into products. -/
theorem lma_rescale (E : ℚ → ℚ) (hom : ∀ x y, E (x + y) = E x * E y)
    (K kc : ℕ) (hkc : 0 < kc) (a w : ℕ → ℚ) (m : ℕ → ℚ) (M : ℚ) :
    ∑ t ∈ Finset.range (numChunks K kc),
        (∑ r ∈ Finset.range (chunkLen K kc t), E (a (kc * t + r) - m t) * w (kc * t + r))
          * E (m t - M)
      = (∑ j ∈ Finset.range K, E (a j) * w j) * E (-M) := by
  have key : ∀ x mt, E (x - mt) * E (mt - M) = E x * E (-M) := by
    intro x mt
    calc E (x - mt) * E (mt - M) = E ((x - mt) + (mt - M)) := (hom _ _).symm
      _ = E (x + -M) := by rw [show (x - mt) + (mt - M) = x + -M by ring]
      _ = E x * E (-M) := hom _ _
  calc ∑ t ∈ Finset.range (numChunks K kc),
        (∑ r ∈ Finset.range (chunkLen K kc t), E (a (kc * t + r) - m t) * w (kc * t + r))
          * E (m t - M)
      = ∑ t ∈ Finset.range (numChunks K kc),
          ∑ r ∈ Finset.range (chunkLen K kc t), E (a (kc * t + r)) * w (kc * t + r) * E (-M) := by
        refine Finset.sum_congr rfl (fun t _ => ?_)
        rw [Finset.sum_mul]
        refine Finset.sum_congr rfl (fun r _ => ?_)
        rw [mul_right_comm, key]
        ring
    _ = ∑ j ∈ Finset.range K, E (a j) * w j * E (-M) :=
        (sum_chunked kc hkc K (fun j => E (a j) * w j * E (-M))).symm
    _ = (∑ j ∈ Finset.range K, E (a j) * w j) * E (-M) := by rw [Finset.sum_mul]

/-- The key/value loop of _lma computes the plain softmax-weighted sum:
for any positive multiplicative E, lmaRow equals the ratio of the
exponential-weighted value sum to the exponential weight sum. -/
theorem lmaRow_eq (E : ℚ → ℚ) (hom : ∀ x y, E (x + y) = E x * E y)
    (hpos : ∀ x, 0 < E x) (K kc : ℕ) (hkc : 0 < kc)
    (a : ℕ → ℚ) (v : ℕ → ℕ → ℚ) (d : ℕ) :
    lmaRow E K kc a v d
      = (∑ j ∈ Finset.range K, E (a j) * v j d) / (∑ j ∈ Finset.range K, E (a j)) := by
  unfold lmaRow
  rw [lma_rescale E hom K kc hkc a (fun j => v j d) (lmaChunkM K kc a) (lmaGlobalM K kc a)]
  have hden :
      (∑ t ∈ Finset.range (numChunks K kc),
          (∑ r ∈ Finset.range (chunkLen K kc t), E (a (kc * t + r) - lmaChunkM K kc a t))
            * E (lmaChunkM K kc a t - lmaGlobalM K kc a))
        = (∑ j ∈ Finset.range K, E (a j)) * E (-lmaGlobalM K kc a) := by
    have h1 := lma_rescale E hom K kc hkc a (fun _ => 1) (lmaChunkM K kc a) (lmaGlobalM K kc a)
    simpa [mul_one] using h1
  rw [hden]
  exact mul_div_mul_right _ _ (ne_of_gt (hpos _))

/-- The stock attention core as a single quotient: softmax-then-matmul
equals the ratio of the weighted sum to the weight sum. -/
theorem attnCore_div (E : ℚ → ℚ) (K D : ℕ) (q k v b : ℕ → ℕ → ℚ) (i d : ℕ) :
    attnCore E K D q k v b i d
      = (∑ j ∈ Finset.range K, E (dotQ D (q i) (k j) + b i j) * v j d)
          / ∑ j ∈ Finset.range K, E (dotQ D (q i) (k j) + b i j) := by
  unfold attnCore softmaxDen
  simp only [div_mul_eq_mul_div]
  rw [← Finset.sum_div]

/-- C1: for identical query/key/value/bias inputs (biases expanded to full
query-by-key shape) and any positive chunk sizes, the reference attention
_attention, the chunked-with-recomputation attention
_attention_chunked_trainable, and the online-softmax low-memory attention
_lma produce equal outputs, exactly, over exact arithmetic — for every
abstract exponential E that turns sums into products and is positive, as
the real exponential does. -/
theorem attention_chunked_lma_agree
    (E : ℚ → ℚ) (hom : ∀ x y, E (x + y) = E x * E y) (hpos : ∀ x, 0 < E x)
    (K D chunk_size qc kc : ℕ)
    (hcb : 0 < chunk_size) (hqc : 0 < qc) (hkc : 0 < kc) (checkpoint : Bool)
    (q k v b : ℕ → ℕ → ℕ → ℚ) :
    _attention E K D q k v [b] = some (fun n => attnCore E K D (q n) (k n) (v n) (b n))
    ∧ _attention_chunked_trainable E K D q k v [b] chunk_size checkpoint
        = some (fun n => attnCore E K D (q n) (k n) (v n) (b n))
    ∧ _lma E K D qc kc q k v [b] = fun n => attnCore E K D (q n) (k n) (v n) (b n) := by
  refine ⟨rfl, ?_, ?_⟩
  · unfold _attention_chunked_trainable
    rw [if_neg (by simp)]
    have htake : (if checkpoint then [b].take 2 else [b]) = [b] := by
      cases checkpoint <;> simp
    rw [htake]
    show (some fun n => attnCore E K D
          (sliceB chunk_size (n / chunk_size) q (n % chunk_size))
          (sliceB chunk_size (n / chunk_size) k (n % chunk_size))
          (sliceB chunk_size (n / chunk_size) v (n % chunk_size))
          (sliceB chunk_size (n / chunk_size) b (n % chunk_size)))
        = some fun n => attnCore E K D (q n) (k n) (v n) (b n)
    congr 1
    funext n
    simp only [sliceB]
    rw [Nat.div_add_mod]
  · funext n i d
    unfold _lma
    rw [Nat.div_add_mod]
    rw [lmaRow_eq E hom hpos K kc hkc]
    rw [attnCore_div]
    simp [biasSum]

/-- Witness for C1: the three variants applied at a concrete input with
E = 1, unit dimensions and chunk sizes. -/
theorem attention_chunked_lma_agree_witness :
    _attention (fun _ => (1 : ℚ)) 1 1 (fun _ _ _ => 1) (fun _ _ _ => 1) (fun _ _ _ => 1)
        [fun _ _ _ => 1]
      = some (fun _ => attnCore (fun _ => (1 : ℚ)) 1 1 (fun _ _ => 1) (fun _ _ => 1)
          (fun _ _ => 1) (fun _ _ => 1))
    ∧ _attention_chunked_trainable (fun _ => (1 : ℚ)) 1 1 (fun _ _ _ => 1) (fun _ _ _ => 1)
        (fun _ _ _ => 1) [fun _ _ _ => 1] 1 false
      = some (fun _ => attnCore (fun _ => (1 : ℚ)) 1 1 (fun _ _ => 1) (fun _ _ => 1)
          (fun _ _ => 1) (fun _ _ => 1))
    ∧ _lma (fun _ => (1 : ℚ)) 1 1 1 1 (fun _ _ _ => 1) (fun _ _ _ => 1) (fun _ _ _ => 1)
        [fun _ _ _ => 1]
      = fun _ => attnCore (fun _ => (1 : ℚ)) 1 1 (fun _ _ => 1) (fun _ _ => 1)
          (fun _ _ => 1) (fun _ _ => 1) :=
  attention_chunked_lma_agree (fun _ => 1) (fun _ _ => by norm_num) (fun _ => by norm_num)
    1 1 1 1 1 (by norm_num) (by norm_num) (by norm_num) false
    (fun _ _ _ => 1) (fun _ _ _ => 1) (fun _ _ _ => 1) (fun _ _ _ => 1)

/-- An error result is an error. -/
@[simp] theorem isErr_error (s : String) : isErr (Except.error s) = true := rfl

/-- An ok result is not an error. -/
@[simp] theorem isErr_ok (p : AttnPath) : isErr (Except.ok p) = false := rfl

/-- C2 counterexample: with zero backend flags selected (and a single bias
term), Attention.forward raises no error at all — it dispatches the stock
PyTorch reference implementation, exactly as its docstring promises. -/
theorem attention_zero_flags_no_error :
    Attention.forwardSel ⟨false, false, false⟩ false false false false (some 1)
        (some 1024) (some 4096) = Except.ok AttnPath.stock := rfl

/-- C2 amended: selecting more than one backend flag raises a fatal
call-time error; zero flags is not an error (see the counterexample: the
call falls back to the stock reference path). -/
theorem attention_multi_flags_error (env : AttnEnv)
    (u1 u2 u3 u4 : Bool) (biases lq lkv : Option ℕ)
    (hmulti : 1 < countTrue [u1, u2, u3, u4]) :
    isErr (Attention.forwardSel env u1 u2 u3 u4 biases lq lkv) = true := by
  rcases env with ⟨d4, fa, fp⟩
  cases u1 <;> cases u2 <;> cases u3 <;> cases u4 <;>
    first
      | exact absurd hmulti (by decide)
      | (rcases lq with _ | x <;> rcases lkv with _ | y <;> rcases biases with _ | nb <;>
          cases d4 <;> cases fa <;> cases fp <;>
          simp [Attention.forwardSel, countTrue, isErr, apply_ite isErr])

/-- Witness for C2 amended: two flags set simultaneously error out. -/
theorem attention_multi_flags_error_witness :
    isErr (Attention.forwardSel ⟨true, true, false⟩ true true false false (some 1)
        (some 1024) (some 4096)) = true :=
  attention_multi_flags_error ⟨true, true, false⟩ true true false false (some 1)
    (some 1024) (some 4096) (by decide)

/-- C3 counterexample: when fp16 autocast is enabled, a request for the
memory-efficient kernel — whose implementation is unavailable in this
repository, its branch raises NotImplementedError — is silently dropped
(primitives.py:665-666) and the call degrades to the stock reference path
without any error. -/
theorem attention_fp16_memeff_degrades :
    Attention.forwardSel ⟨false, false, true⟩ true false false false (some 1)
        (some 1024) (some 4096) = Except.ok AttnPath.stock := rfl

/-- C3 amended: a request for an optimized backend whose implementation is
unavailable raises — the memory-efficient kernel always (it is not
implemented), DeepSpeed Evoformer attention when deepspeed4science is
missing, flash attention when flash_attn is missing — and the stock
reference path is never reached with a backend flag set, except that a
memory-efficient-kernel request under fp16 autocast is silently redirected
to the stock path. -/
theorem attention_unavailable_backend_raises (env : AttnEnv)
    (u1 u2 u3 u4 : Bool) (biases lq lkv : Option ℕ) :
    (env.fp16_enabled = false →
        isErr (Attention.forwardSel env true false false false biases lq lkv) = true)
    ∧ (env.ds4s_is_installed = false →
        isErr (Attention.forwardSel env false true false false biases lq lkv) = true)
    ∧ (env.fa_is_installed = false →
        isErr (Attention.forwardSel env false false false true biases lq lkv) = true)
    ∧ (Attention.forwardSel env u1 u2 u3 u4 biases lq lkv = Except.ok AttnPath.stock →
        u2 = false ∧ u3 = false ∧ u4 = false ∧ (u1 = false ∨ env.fp16_enabled = true)) := by
  rcases env with ⟨d4, fa, fp⟩
  refine ⟨fun h1 => ?_, fun h2 => ?_, fun h3 => ?_, fun h4 => ?_⟩
  · subst h1
    rcases biases with _ | nb <;>
      simp [Attention.forwardSel, countTrue, apply_ite isErr]
  · subst h2
    rcases biases with _ | nb <;>
      simp [Attention.forwardSel, countTrue, apply_ite isErr]
  · subst h3
    rcases biases with _ | nb <;> rcases lq with _ | x <;> rcases lkv with _ | y <;>
      simp [Attention.forwardSel, countTrue, apply_ite isErr]
  · cases u1 <;> cases u2 <;> cases u3 <;> cases u4 <;> cases fp <;>
      rcases biases with _ | nb <;> rcases lq with _ | x <;> rcases lkv with _ | y <;>
      cases d4 <;> cases fa <;>
      simp_all [Attention.forwardSel, countTrue] <;>
      split at h4 <;> simp_all

/-- Witness for C3 amended: each unavailable-backend request errors at a
concrete environment, and a stock result at a concrete call implies no
flags were set. -/
theorem attention_unavailable_backend_raises_witness :
    isErr (Attention.forwardSel ⟨false, false, false⟩ true false false false (some 1)
        (some 1024) (some 4096)) = true
    ∧ isErr (Attention.forwardSel ⟨false, false, false⟩ false true false false (some 1)
        (some 1024) (some 4096)) = true
    ∧ isErr (Attention.forwardSel ⟨false, false, false⟩ false false false true (some 1)
        (some 1024) (some 4096)) = true :=
  ⟨(attention_unavailable_backend_raises ⟨false, false, false⟩ false false false false
      (some 1) (some 1024) (some 4096)).1 rfl,
   (attention_unavailable_backend_raises ⟨false, false, false⟩ false false false false
      (some 1) (some 1024) (some 4096)).2.1 rfl,
   (attention_unavailable_backend_raises ⟨false, false, false⟩ false false false false
      (some 1) (some 1024) (some 4096)).2.2.1 rfl⟩

/-- C10: AttentionPairBias.forward dispatches the attention engine with
use_deepspeed_evo_attention hard-coded to True, so every call either runs
the DeepSpeed Evoformer path or — whenever the deepspeed4science kernel is
not installed — raises the configuration error; in particular the
reference, chunked, LMA and flash paths are never executed. -/
theorem apb_dispatch_always_deepspeed (env : AttnEnv) :
    AttentionPairBias.forwardSel env
      = (if env.ds4s_is_installed then Except.ok AttnPath.dsEvo
         else Except.error "_deepspeed_evo_attn requires that DeepSpeed be installed and that the deepspeed.ops.deepspeed4science package exists") := by
  rcases env with ⟨d4, fa, fp⟩
  cases d4 <;> cases fa <;> cases fp <;> rfl

/-- The gating-initialized linear layer is constantly one: zero weights
contribute nothing and the bias is filled with ones. -/
theorem linearF_gating_init (Din : ℕ) (x : ℕ → ℚ) :
    linearF gatingInitW gatingInitB Din x = fun _ => 1 := by
  funext d
  unfold linearF gatingInitW gatingInitB
  simp

/-- The final-initialized bias-free linear layer is constantly zero. -/
theorem linearNoBiasF_final_init (Din : ℕ) (x : ℕ → ℚ) :
    linearNoBiasF finalInitW Din x = fun _ => 0 := by
  funext d
  unfold linearNoBiasF finalInitW
  simp

/-- C8 counterexample: the claim entails that the freshly constructed AdaLN
gate is approximately zero for every input, which for a sigmoid gate
requires a (very) negative pre-activation — the sigmoid is at least 1/2 at
every nonnegative argument.  At construction the gating initializer sets
the weights to zero but the bias to one (primitives.py:177-180), so the
gate pre-activation is 1 at this concrete input (indeed at every input) and
the gate is sigmoid(1) ≈ 0.731, not ≈ 0. -/
theorem adaLN_init_gate_preact_positive :
    AdaLN.gammaPreact (fun x => x) gatingInitW gatingInitB 2 (fun _ => 5) 0 = 1
    ∧ ¬((1 : ℚ) ≤ 0) := by
  constructor
  · unfold AdaLN.gammaPreact linearF gatingInitW gatingInitB
    simp
  · norm_num

/-- C8 amended: AdaLN.forward returns gate ⊙ normalized_primary + skip,
where the skip is the zero-initialized projection of the normalized
conditioning signal; at construction the skip is identically zero and the
gate pre-activation is identically one, so the whole map is the constant
sigmoid(1) ≈ 0.731 times the normalized primary input — not a near-zero
map with gate ≈ 0. -/
theorem adaLN_init_map (σ : ℚ → ℚ) (hmono : Monotone σ) (hhalf : σ 0 = 1 / 2)
    (lnA lnS : (ℕ → ℚ) → ℕ → ℚ) (Din : ℕ) (a s : ℕ → ℚ) :
    AdaLN.forwardF lnA lnS σ gatingInitW finalInitW gatingInitB Din a s
        = (fun d => σ 1 * lnA a d)
    ∧ AdaLN.gammaPreact lnS gatingInitW gatingInitB Din s = (fun _ => 1)
    ∧ (1 / 2 : ℚ) ≤ σ 1 := by
  refine ⟨?_, ?_, ?_⟩
  · funext d
    unfold AdaLN.forwardF
    rw [linearF_gating_init, linearNoBiasF_final_init]
    simp
  · unfold AdaLN.gammaPreact
    rw [linearF_gating_init]
  · rw [← hhalf]
    exact hmono (by norm_num)

/-- Witness for C8 amended, with the constant 1/2 as a monotone stand-in
for the sigmoid. -/
theorem adaLN_init_map_witness :
    AdaLN.forwardF (fun x => x) (fun x => x) (fun _ => (1 : ℚ) / 2) gatingInitW finalInitW
        gatingInitB 2 (fun _ => 3) (fun _ => 4)
      = (fun d => (1 : ℚ) / 2 * (fun x => x) (fun _ => (3 : ℚ)) d)
    ∧ AdaLN.gammaPreact (fun x => x) gatingInitW gatingInitB 2 (fun _ => 4) = (fun _ => 1)
    ∧ (1 / 2 : ℚ) ≤ 1 / 2 :=
  adaLN_init_map (fun _ => 1 / 2) monotone_const rfl (fun x => x) (fun x => x) 2
    (fun _ => 3) (fun _ => 4)

/-- C9: the output gate of AttentionPairBias.forward at construction time
is exactly sigmoid(-2) — about 0.11 for the real sigmoid — for every
input: the output projection has zero weights and its bias is overwritten
with -2.  It is strictly positive (not exactly zero) and differs from the
gate of the plain attention engine, whose gating initializer yields the
constant sigmoid(1) ≈ 0.731.  The two hypotheses, 0 < σ(-2) and
σ(-2) < σ(1), hold for the real sigmoid. -/
theorem apb_output_gate_init (σ : ℚ → ℚ) (h1 : 0 < σ (-2)) (h2 : σ (-2) < σ 1)
    (Din : ℕ) (x y : ℕ → ℚ) (d e : ℕ) :
    AttentionPairBias.outputGate σ Din x d = σ (-2)
    ∧ 0 < AttentionPairBias.outputGate σ Din x d
    ∧ Attention.gammaAtInit σ Din y e = σ 1
    ∧ AttentionPairBias.outputGate σ Din x d ≠ Attention.gammaAtInit σ Din y e := by
  have hg : AttentionPairBias.outputGate σ Din x d = σ (-2) := by
    unfold AttentionPairBias.outputGate linearF gatingInitW AttentionPairBias.outputProjB
    simp
  have hp : Attention.gammaAtInit σ Din y e = σ 1 := by
    unfold Attention.gammaAtInit
    rw [linearF_gating_init]
  refine ⟨hg, ?_, hp, ?_⟩
  · rw [hg]; exact h1
  · rw [hg, hp]; exact ne_of_lt h2

/-- Witness for C9 with the strictly increasing affine map q + 3 standing
in for the sigmoid at the two probed points. -/
theorem apb_output_gate_init_witness :
    AttentionPairBias.outputGate (fun q => q + 3) 2 (fun _ => 7) 0 = (fun q => q + 3) (-2)
    ∧ 0 < AttentionPairBias.outputGate (fun q => q + 3) 2 (fun _ => 7) 0
    ∧ Attention.gammaAtInit (fun q => q + 3) 2 (fun _ => 9) 1 = (fun q => q + 3) 1
    ∧ AttentionPairBias.outputGate (fun q => q + 3) 2 (fun _ => 7) 0
        ≠ Attention.gammaAtInit (fun q => q + 3) 2 (fun _ => 9) 1 :=
  apb_output_gate_init (fun q => q + 3) (by norm_num) (by norm_num) 2
    (fun _ => 7) (fun _ => 9) 0 1

/-- One unfolding of the refinement loop: with n + 1 blocks remaining the
head output records the composed frames and their atom positions, and the
recursion continues from the stepped state — the rotation detach between
iterations is value-transparent, so the running value state is smStep. -/
theorem smRun_succ {S : Type} (ctx : SMContext S) (n : ℕ) (s : S) (rigids : ℕ → ℕ → Rigid3) :
    smRun ctx (n + 1) s rigids
      = (⟨(smStep ctx (s, rigids)).2, frames_to_atom4_pos ctx (smStep ctx (s, rigids)).2⟩
            :: (smRun ctx n (smStep ctx (s, rigids)).1 (smStep ctx (s, rigids)).2).1,
         (smRun ctx n (smStep ctx (s, rigids)).1 (smStep ctx (s, rigids)).2).2) := by
  have hstop : ∀ r : ℕ → ℕ → Rigid3, (fun b t => (r b t).stopRotGradient) = r := fun _ => rfl
  simp only [smRun, hstop, ite_self]
  rfl

/-- The output recorded at block index i of a refinement run is the frames
of the (i + 1)-times stepped state, with its atom positions. -/
theorem smRun_get {S : Type} (ctx : SMContext S) :
    ∀ (i n : ℕ) (s : S) (rigids : ℕ → ℕ → Rigid3), i < n →
      ((smRun ctx n s rigids).1)[i]?
        = some ⟨((smStep ctx)^[i + 1] (s, rigids)).2,
                frames_to_atom4_pos ctx ((smStep ctx)^[i + 1] (s, rigids)).2⟩ := by
  intro i
  induction i with
  | zero =>
    intro n s rigids hn
    cases n with
    | zero => omega
    | succ n =>
      rw [smRun_succ]
      simp [Function.iterate_one]
  | succ i ih =>
    intro n s rigids hn
    cases n with
    | zero => omega
    | succ n =>
      rw [smRun_succ]
      simp only [List.getElem?_cons_succ]
      rw [ih n _ _ (by omega)]
      rw [← Function.iterate_succ_apply]

/-- The frames of the (i + 1)-times stepped state are the left fold of
rigid composition over the predicted incremental transforms, starting from
the initial frames. -/
theorem smStates_frames_fold {S : Type} (ctx : SMContext S) (b t : ℕ) :
    ∀ (i : ℕ) (st : S × (ℕ → ℕ → Rigid3)),
      ((smStep ctx)^[i + 1] st).2 b t
        = List.foldl Rigid3.compose (st.2 b t)
            ((List.range (i + 1)).map
              (fun j => ctx.bb_update ((smStep ctx)^[j + 1] st).1 b t)) := by
  intro i
  induction i with
  | zero =>
    intro st
    rw [show List.range 1 = [0] from rfl]
    simp only [Function.iterate_one, List.map_cons, List.map_nil,
      List.foldl_cons, List.foldl_nil]
    rfl
  | succ i ih =>
    intro st
    rw [List.range_succ, List.map_append, List.foldl_append]
    simp only [List.map_cons, List.map_nil, List.foldl_cons, List.foldl_nil]
    rw [← ih st]
    rw [Function.iterate_succ_apply']
    rfl

/-- A refinement run records exactly one output per block. -/
theorem smRun_length {S : Type} (ctx : SMContext S) :
    ∀ (n : ℕ) (s : S) (rigids : ℕ → ℕ → Rigid3), ((smRun ctx n s rigids).1).length = n := by
  intro n
  induction n with
  | zero => intro s rigids; rfl
  | succ n ih =>
    intro s rigids
    rw [smRun_succ]
    simp [ih]

/-- The final feature state of a refinement run is the n-times stepped
feature state. -/
theorem smRun_single {S : Type} (ctx : SMContext S) :
    ∀ (n : ℕ) (s : S) (rigids : ℕ → ℕ → Rigid3),
      (smRun ctx n s rigids).2 = ((smStep ctx)^[n] (s, rigids)).1 := by
  intro n
  induction n with
  | zero => intro s rigids; rfl
  | succ n ih =>
    intro s rigids
    rw [smRun_succ, ih, ← Function.iterate_succ_apply]

/-- The value part of the dual identity transform is the rational identity
transform. -/
theorem RigidD.value_identity : RigidD.identity.value = Rigid3.identity := by
  unfold RigidD.identity RigidD.value Rigid3.identity
  congr 1
  funext i j
  show (if i = j then (⟨1, 0⟩ : Dual) else ⟨0, 0⟩).val = (if i = j then (1 : ℚ) else 0)
  split <;> rfl

/-- C4: in the refinement loop the per-token rigid transform starts as the
identity and is updated exactly once per block by right-composition with
the increment predicted from the token features: the frames recorded at
block i equal the left fold of composition, starting from the identity,
over the bb_update predictions at the successive feature states. -/
theorem rigids_identity_init_compose {S : Type} (ctx : SMContext S) (s0 : S)
    (n i : ℕ) (hi : i < n) :
    ∃ o : SMBlockOut,
      ((StructureModule.forward ctx n s0).1)[i]? = some o
      ∧ ∀ b t, o.frames b t
          = List.foldl Rigid3.compose Rigid3.identity
              ((List.range (i + 1)).map
                (fun j => ctx.bb_update
                  ((smStep ctx)^[j + 1] (s0, fun _ _ => Rigid3.identity)).1 b t)) := by
  refine ⟨_, smRun_get ctx i n s0 (fun _ _ => Rigid3.identity) hi, ?_⟩
  intro b t
  simpa using smStates_frames_fold ctx b t i (s0, fun _ _ => Rigid3.identity)

/-- Witness for C4 at the trivial context with two blocks. -/
theorem rigids_identity_init_compose_witness :
    ∃ o : SMBlockOut,
      ((StructureModule.forward smCtxU 2 ()).1)[1]? = some o
      ∧ ∀ b t, o.frames b t
          = List.foldl Rigid3.compose Rigid3.identity
              ((List.range 2).map
                (fun j => smCtxU.bb_update
                  ((smStep smCtxU)^[j + 1] ((), fun _ _ => Rigid3.identity)).1 b t)) :=
  rigids_identity_init_compose smCtxU () 2 1 (by norm_num)

/-- C5: across the refinement loop, after every block except the last the
boundary operation on the running transform is exactly stop_rot_gradient
of the freshly composed transform — it zeroes the rotation derivative,
preserves the rotation value, and leaves the translation (value and
derivative) untouched — while the transform produced by the final block
receives no detach; and the value trajectory of the running transform is
the detach-free fold of composition over the increments. -/
theorem stop_rot_between_blocks (inc : ℕ → RigidD) (n : ℕ) :
    (∀ i, i + 1 < n →
        smRigidSeq inc n (i + 1)
            = ((smRigidSeq inc n i).compose (inc i)).stopRotGradient
          ∧ (smRigidSeq inc n (i + 1)).trans
              = ((smRigidSeq inc n i).compose (inc i)).trans
          ∧ (∀ p q2, ((smRigidSeq inc n (i + 1)).rot p q2).der = 0)
          ∧ (∀ p q2, ((smRigidSeq inc n (i + 1)).rot p q2).val
              = (((smRigidSeq inc n i).compose (inc i)).rot p q2).val))
    ∧ (∀ i, i + 1 = n → smRigidSeq inc n (i + 1) = (smRigidSeq inc n i).compose (inc i))
    ∧ (∀ i, (smRigidSeq inc n i).value
          = List.foldl Rigid3.compose Rigid3.identity
              ((List.range i).map (fun j => (inc j).value))) := by
  refine ⟨fun i h => ?_, fun i h => ?_, fun i => ?_⟩
  · have hs : smRigidSeq inc n (i + 1)
        = ((smRigidSeq inc n i).compose (inc i)).stopRotGradient := by
      simp only [smRigidSeq]
      rw [if_pos h]
    exact ⟨hs, by rw [hs]; rfl, by rw [hs]; intro p q2; rfl, by rw [hs]; intro p q2; rfl⟩
  · simp only [smRigidSeq]
    rw [if_neg (by omega)]
  · induction i with
    | zero =>
      simp only [smRigidSeq, List.range_zero, List.map_nil, List.foldl_nil]
      exact RigidD.value_identity
    | succ i ih =>
      simp only [smRigidSeq]
      rw [List.range_succ, List.map_append, List.foldl_append]
      simp only [List.map_cons, List.map_nil, List.foldl_cons, List.foldl_nil]
      rw [← ih]
      by_cases hc : i + 1 < n
      · rw [if_pos hc]
        rfl
      · rw [if_neg hc]
        rfl

/-- Witness for C5 with identity increments and two blocks. -/
theorem stop_rot_between_blocks_witness :
    smRigidSeq (fun _ => RigidD.identity) 2 1
        = ((smRigidSeq (fun _ => RigidD.identity) 2 0).compose RigidD.identity).stopRotGradient
    ∧ smRigidSeq (fun _ => RigidD.identity) 2 2
        = (smRigidSeq (fun _ => RigidD.identity) 2 1).compose RigidD.identity
    ∧ (smRigidSeq (fun _ => RigidD.identity) 2 2).value
        = List.foldl Rigid3.compose Rigid3.identity
            ((List.range 2).map (fun j => ((fun _ => RigidD.identity) j).value)) :=
  ⟨((stop_rot_between_blocks (fun _ => RigidD.identity) 2).1 0 (by norm_num)).1,
   (stop_rot_between_blocks (fun _ => RigidD.identity) 2).2.1 1 rfl,
   (stop_rot_between_blocks (fun _ => RigidD.identity) 2).2.2 2⟩

/-- C6: StructureModule.forward returns the per-block records stacked
along a leading iteration axis of length no_blocks — the output list has
one entry per block — together with the final token-feature state; each
recorded positions tensor is indexed by batch, token, one of the first
four template atoms (Fin 4), and coordinate (Fin 3), and equals the token
transform applied to the corresponding first-four atom offset of the
literature template. -/
theorem structure_outputs_stacked {S : Type} (ctx : SMContext S) (s0 : S) (n : ℕ) :
    ((StructureModule.forward ctx n s0).1).length = n
    ∧ (∀ i, i < n → ∃ o : SMBlockOut,
        ((StructureModule.forward ctx n s0).1)[i]? = some o
        ∧ o.positions = frames_to_atom4_pos ctx o.frames
        ∧ ∀ b t (a4 : Fin 4) (x3 : Fin 3),
            o.positions b t a4 x3
              = (o.frames b t).apply
                  (fun c3 => ctx.lit_positions ctx.ala_order (a4 : ℕ) c3) x3)
    ∧ (StructureModule.forward ctx n s0).2
        = ((smStep ctx)^[n] (s0, fun _ _ => Rigid3.identity)).1 := by
  refine ⟨smRun_length ctx n s0 _, fun i hi => ?_, smRun_single ctx n s0 _⟩
  exact ⟨_, smRun_get ctx i n s0 (fun _ _ => Rigid3.identity) hi, rfl,
    fun b t a4 x3 => rfl⟩

/-- Witness for C6: four blocks on the trivial context give a length-4
stack, as in the [4, 2, 10, 4, 3] example of the spec. -/
theorem structure_outputs_stacked_witness :
    ((StructureModule.forward smCtxU 4 ()).1).length = 4
    ∧ (∃ o : SMBlockOut, ((StructureModule.forward smCtxU 4 ()).1)[0]? = some o
        ∧ o.positions = frames_to_atom4_pos smCtxU o.frames
        ∧ ∀ b t (a4 : Fin 4) (x3 : Fin 3),
            o.positions b t a4 x3
              = (o.frames b t).apply
                  (fun c3 => smCtxU.lit_positions smCtxU.ala_order (a4 : ℕ) c3) x3)
    ∧ (StructureModule.forward smCtxU 4 ()).2
        = ((smStep smCtxU)^[4] ((), fun _ _ => Rigid3.identity)).1 :=
  ⟨(structure_outputs_stacked smCtxU () 4).1,
   (structure_outputs_stacked smCtxU () 4).2.1 0 (by norm_num),
   (structure_outputs_stacked smCtxU () 4).2.2⟩

/-- C7 counterexample: materialize the template buffer at
(precision, device) = (0, 0), then call frames_to_atom4_pos again at
(1, 1): the hasattr guard of _init_residue_constants keeps the stale
buffer, whose dtype and device are still (0, 0) — not the (1, 1) of the
second call, contradicting caching per (precision, device) pair. -/
theorem lit_cache_stale_on_second_call :
    (frames_to_atom4_posSt smCtxU
        (frames_to_atom4_posSt smCtxU none 0 0 (fun _ _ => Rigid3.identity)).1
        1 1 (fun _ _ => Rigid3.identity)).1 = some ⟨0, 0⟩
    ∧ some (⟨0, 0⟩ : LitCache) ≠ some ⟨1, 1⟩ := by
  exact ⟨rfl, by decide⟩

/-- C7 amended: the template buffer is materialized lazily on the first
frames_to_atom4_pos call, with the dtype and device of that first call,
and is cached for the lifetime of the module; every later call leaves the
cache unchanged, whatever its own precision and device are. -/
theorem lit_cache_first_call_only {S : Type} (ctx : SMContext S) (st : Option LitCache)
    (float_dtype device : ℕ) (frames : ℕ → ℕ → Rigid3) :
    (st = none →
        (frames_to_atom4_posSt ctx st float_dtype device frames).1
          = some ⟨float_dtype, device⟩)
    ∧ (∀ c, st = some c →
        (frames_to_atom4_posSt ctx st float_dtype device frames).1 = some c) := by
  constructor
  · intro h
    subst h
    rfl
  · intro c h
    subst h
    rfl

/-- Witness for C7 amended: a first call at (3, 5) materializes (3, 5); a
second call at (7, 9) keeps (3, 5). -/
theorem lit_cache_first_call_only_witness :
    (frames_to_atom4_posSt smCtxU none 3 5 (fun _ _ => Rigid3.identity)).1 = some ⟨3, 5⟩
    ∧ (frames_to_atom4_posSt smCtxU (some ⟨3, 5⟩) 7 9 (fun _ _ => Rigid3.identity)).1
        = some ⟨3, 5⟩ :=
  ⟨(lit_cache_first_call_only smCtxU none 3 5 (fun _ _ => Rigid3.identity)).1 rfl,
   (lit_cache_first_call_only smCtxU (some ⟨3, 5⟩) 7 9 (fun _ _ => Rigid3.identity)).2
      ⟨3, 5⟩ rfl⟩
